import Mathlib

/-!
Shallow embedding of `src/main.go` (bobafm), a mode-based terminal file
manager, together with proofs about the claims of its specification.

The embedding models:

* the filesystem as an association list from absolute paths (component
  lists) to nodes (`Node.dir` or `Node.file content`), with the root
  directory `[]` implicit and always existing;
* the filesystem primitives the program calls (`os.MkdirAll`,
  `os.OpenFile` with `O_CREATE|O_EXCL`, `os.Rename`, `os.RemoveAll`,
  `os.ReadDir`, and the program's own `copyFile`), including their
  silent-failure behaviour (every error is dropped and the operation
  becomes a no-op, exactly as the Go code ignores the returned errors);
* the string helpers the program uses (`strings.TrimSpace`,
  `strings.HasSuffix(s, "/")`, `filepath.Join`/`Clean`, `filepath.Dir`,
  `filepath.Base`), over `String.data` so that everything evaluates
  structurally;
* the `model` struct and the `Update` dispatcher for the events the
  specification's claims are about.  External collaborators (the list
  widget, text input widget, viewport, `lsblk`, `udisksctl`, the editor
  subprocess) are outside the model; the list widget's current selection
  appears as the `selected` field, mirroring `m.browse.SelectedItem()`.
-/

namespace Bobafm

/-! ## Paths -/

/-- Absolute filesystem path, as its list of components below the root.
`[]` is the filesystem root `/`. -/
abbrev Path := List String

/-- Models `filepath.Dir` on an absolute path: drop the last component
(`Dir("/") = "/"` becomes `dirName [] = []`). -/
def dirName (p : Path) : Path := p.dropLast

/-- Models `filepath.Base` on an absolute path: the last component (for the
root we return `""`; `filepath.Base("/")` is `"/"`, a case none of the
claims exercises because every path handed to `Base` in the program is a
catalog entry's path, which has at least one component). -/
def baseName (p : Path) : String := p.getLastD ""

/-! ## Strings -/

/-- Models `unicode.IsSpace` on the characters the claims can exercise
(Lean's `Char.isWhitespace`: space, tab, carriage return, newline). -/
def isSpace (c : Char) : Bool := c.isWhitespace

/-- Models `strings.TrimSpace`: drop whitespace from both ends. -/
def trimSpace (s : String) : String :=
  String.mk (((s.data.dropWhile isSpace).reverse.dropWhile isSpace).reverse)

/-- Models `strings.HasSuffix(s, "/")`: the last character is a path
separator. -/
def endsWithSep (s : String) : Bool :=
  match s.data.getLast? with
  | some c => c = '/'
  | none => false

/-- Models the Go expression `name[0] == '.'` used by `refreshBrowse` to
detect hidden entries (directory-entry names are never empty). -/
def startsWithDot (s : String) : Bool :=
  match s.data with
  | c :: _ => c = '.'
  | [] => false

/-- Helper for `splitComps`: split a character list at `'/'`. -/
def splitSlashAux : List Char → List Char → List String
  | [], acc => [String.mk acc.reverse]
  | c :: rest, acc =>
    if c = '/' then String.mk acc.reverse :: splitSlashAux rest []
    else splitSlashAux rest (c :: acc)

/-- Split a string at `'/'` (the component of `filepath.Join` that
tokenises the relative part; same result as `s.splitOn "/"`). -/
def splitComps (s : String) : List String := splitSlashAux s.data []

/-- One step of `filepath.Clean` over components: empty and `"."`
components vanish, `".."` pops (and stays at the root, as `Clean` does for
absolute paths), anything else is appended. -/
def addComp (acc : Path) (c : String) : Path :=
  if c = "" then acc
  else if c = "." then acc
  else if c = ".." then acc.dropLast
  else acc ++ [c]

/-- Models `filepath.Join(dir, s)` for an absolute, already-clean `dir`:
concatenate and clean. -/
def joinPath (dir : Path) (s : String) : Path :=
  (splitComps s).foldl addComp dir

/-! ## Filesystem -/

/-- Filesystem node: a directory, or a regular file with its content. -/
inductive Node : Type
  | dir : Node
  | file : String → Node
deriving DecidableEq, Repr

/-- Filesystem: association list from absolute paths to nodes.  The root
directory (path `[]`) is implicit and always exists. -/
abbrev Fs := List (Path × Node)

/-- Look a path up in the filesystem (first matching entry). -/
def fsGet : Fs → Path → Option Node
  | [], _ => none
  | e :: rest, p => if e.1 = p then some e.2 else fsGet rest p

/-- Remove every entry at exactly path `p`. -/
def fsRemove : Fs → Path → Fs
  | [], _ => []
  | e :: rest, p => if e.1 = p then fsRemove rest p else e :: fsRemove rest p

/-- Store node `v` at path `p` (replacing any previous entry). -/
def fsSet (fs : Fs) (p : Path) (v : Node) : Fs :=
  fsRemove fs p ++ [(p, v)]

/-- Whether the option holds a directory node. -/
def isDirNode : Option Node → Bool
  | some Node.dir => true
  | _ => false

/-- Whether the option holds a regular-file node. -/
def isFileNode : Option Node → Bool
  | some (Node.file _) => true
  | _ => false

/-- Whether path `p` exists as a directory (the root `[]` always does). -/
def dirExists (fs : Fs) (p : Path) : Bool :=
  p.isEmpty || isDirNode (fsGet fs p)

/-- Models `os.MkdirAll` (the fuel argument is the path's depth, which the
recursion on `filepath.Dir` consumes one component at a time): an existing
path — directory or file — returns at once (Go reports success for a
directory and an error for a file, both ignored by the program); otherwise
the parent is created recursively and, when the parent chain ended in a
directory, the path itself is created.  A file blocking the chain leaves
everything from that point on uncreated, exactly like the real call. -/
def mkdirAllFuel : Nat → Fs → Path → Fs
  | 0, fs, _ => fs
  | fuel + 1, fs, p =>
    if p = [] then fs
    else
      match fsGet fs p with
      | some _ => fs
      | none =>
        let fs1 := mkdirAllFuel fuel fs (dirName p)
        if dirExists fs1 (dirName p) then fsSet fs1 p Node.dir else fs1

/-- Models `os.MkdirAll(p, 0755)`. -/
def mkdirAll (fs : Fs) (p : Path) : Fs := mkdirAllFuel p.length fs p

/-- Models `os.OpenFile(p, os.O_CREATE|os.O_EXCL, 0644)` followed by
`Close`, with the error ignored (`f,_ := ...; if f != nil {...}`): if
anything already exists at `p`, or the parent directory is missing, the
call fails and nothing changes; otherwise an empty file appears. -/
def openFileExcl (fs : Fs) (p : Path) : Fs :=
  if p = [] then fs
  else
    match fsGet fs p with
    | some _ => fs
    | none => if dirExists fs (dirName p) then fsSet fs p (Node.file "") else fs

/-- Key remapping performed by a successful `os.Rename(src, dst)`: every
path inside the `src` subtree moves under `dst`. -/
def remapEntry (src dst : Path) (e : Path × Node) : Path × Node :=
  if src.isPrefixOf e.1 then (dst ++ e.1.drop src.length, e.2) else e

/-- A successful rename: drop whatever was at `dst` and move the `src`
subtree under `dst`. -/
def renameMove (fs : Fs) (src dst : Path) : Fs :=
  (fsRemove fs dst).map (remapEntry src dst)

/-- Models `os.Rename(src, dst)` with the error ignored: a missing source,
a destination whose parent directory is missing, a destination that is an
existing directory, or a directory source over an existing file all fail
(leaving the filesystem unchanged); otherwise the source subtree moves to
`dst`, silently replacing an existing destination file. -/
def renameFs (fs : Fs) (src dst : Path) : Fs :=
  match fsGet fs src with
  | none => fs
  | some srcNode =>
    if dst = [] then fs
    else if dirExists fs (dirName dst) then
      match fsGet fs dst with
      | some Node.dir => fs
      | some (Node.file _) =>
        match srcNode with
        | Node.dir => fs
        | Node.file _ => renameMove fs src dst
      | none => renameMove fs src dst
    else fs

/-- Models `copyFile` (main.go line 217): `os.Open(src)`, `os.Create(dst)`
and `io.Copy`, all errors ignored.  `os.Create` fails when `dst` is an
existing directory or its parent is missing — then nothing happens at all;
otherwise `dst` is created/truncated and receives `src`'s bytes, or ends
up empty when reading `src` fails (missing file or directory source). -/
def copyFile (fs : Fs) (src dst : Path) : Fs :=
  if dst = [] then fs
  else if isDirNode (fsGet fs dst) then fs
  else if dirExists fs (dirName dst) then
    match fsGet fs src with
    | some (Node.file c) => fsSet fs dst (Node.file c)
    | _ => fsSet fs dst (Node.file "")
  else fs

/-- Models `os.RemoveAll(p)`: drop the whole subtree rooted at `p`. -/
def removeAll (fs : Fs) (p : Path) : Fs :=
  fs.filter (fun e => !(p.isPrefixOf e.1))

/-- Lexicographic comparison of character lists by code point (the order
Go's byte-wise string comparison induces on UTF-8 strings). -/
def charListLe : List Char → List Char → Bool
  | [], _ => true
  | _ :: _, [] => false
  | a :: s, b :: t =>
    if a.toNat < b.toNat then true
    else if b.toNat < a.toNat then false
    else charListLe s t

/-- Lexicographic string comparison. -/
def strLe (a b : String) : Bool := charListLe a.data b.data

/-- Insert a name into a lexicographically sorted list of names. -/
def insertSorted (s : String) : List String → List String
  | [] => [s]
  | t :: rest => if strLe s t then s :: t :: rest else t :: insertSorted s rest

/-- Sort names lexicographically (the order `os.ReadDir` guarantees). -/
def sortNames (l : List String) : List String := l.foldr insertSorted []

/-- Names of the direct children of `p` in the filesystem. -/
def childNames (fs : Fs) (p : Path) : List String :=
  fs.filterMap (fun e =>
    if e.1 ≠ [] ∧ dirName e.1 = p then some (e.1.getLastD "") else none)

/-- Models `os.ReadDir(p)`: `none` when `p` is not a readable directory
(the error case the program silently drops), otherwise the children as
`(name, isDirectory)` pairs sorted by filename. -/
def readDir (fs : Fs) (p : Path) : Option (List (String × Bool)) :=
  if dirExists fs p then
    some ((sortNames (childNames fs p)).map
      (fun n => (n, isDirNode (fsGet fs (p ++ [n])))))
  else none

/-! ## UI model (the `model` struct and its collaborators' state) -/

/-- The interaction mode (`Mode` in main.go). -/
inductive Mode : Type
  | ModeBrowse | ModeMounts | ModeInput | ModeView
deriving DecidableEq, Repr

/-- The clipboard mode (`ClipboardMode` in main.go). -/
inductive ClipboardMode : Type
  | ClipNone | ClipCopy | ClipCut
deriving DecidableEq, Repr

open Mode ClipboardMode

/-- A catalog row (`fileItem` in main.go). -/
structure FileItem where
  name : String
  path : Path
  isDir : Bool
  isParent : Bool
deriving DecidableEq, Repr

/-- The program state (`model` in main.go).  `items` is the browse list's
content and `selected` its current selection (`m.browse.SelectedItem()`);
the external widgets carry no other state the claims depend on.  The
filesystem is part of the state so that the dispatcher's filesystem
effects can be stated. -/
structure Model where
  mode : Mode
  cwd : Path
  showHidden : Bool
  items : List FileItem
  selected : FileItem
  marked : List (Path × Bool)
  clipboard : List Path
  clipMode : ClipboardMode
  inputValue : String
  inputTarget : String
  fs : Fs
deriving DecidableEq, Repr

/-- Read a key of the Go map `map[string]bool` (absent keys read as
`false`, as in `m.marked[item.path]`). -/
def mapGet : List (Path × Bool) → Path → Bool
  | [], _ => false
  | e :: rest, k => if e.1 = k then e.2 else mapGet rest k

/-- Write a key of the Go map (`m.marked[item.path] = v`). -/
def mapSet : List (Path × Bool) → Path → Bool → List (Path × Bool)
  | [], k, v => [(k, v)]
  | e :: rest, k, v => if e.1 = k then (k, v) :: rest else e :: mapSet rest k v

/-- Models `delete(m.marked, item.path)`. -/
def mapDelete : List (Path × Bool) → Path → List (Path × Bool)
  | [], _ => []
  | e :: rest, k => if e.1 = k then mapDelete rest k else e :: mapDelete rest k

/-- Models the `keys` helper (main.go line 211): every key of the map —
note: regardless of the stored boolean value. -/
def keys (m : List (Path × Bool)) : List Path := m.map (fun e => e.1)

/-- Build the catalog row for a real directory entry. -/
def mkFileItem (cwd : Path) (e : String × Bool) : FileItem :=
  { name := e.1, path := cwd ++ [e.1], isDir := e.2, isParent := false }

/-- The loop body of `refreshBrowse`: skip hidden names unless
`showHidden`, then append to the directory or file partition. -/
def browseStep (showHidden : Bool) (cwd : Path)
    (acc : List FileItem × List FileItem) (e : String × Bool) :
    List FileItem × List FileItem :=
  if !showHidden && startsWithDot e.1 then acc
  else if e.2 then (acc.1 ++ [mkFileItem cwd e], acc.2)
  else (acc.1, acc.2 ++ [mkFileItem cwd e])

/-- The catalog `refreshBrowse` builds from the directory entries: the
parent link is put into the directory partition first (only when the
parent differs from the current directory), then the loop distributes the
entries, and directories are concatenated before files. -/
def catalogItems (showHidden : Bool) (cwd : Path)
    (entries : List (String × Bool)) : List FileItem :=
  let parent := dirName cwd
  let dirs0 : List FileItem :=
    if parent ≠ cwd then
      [{ name := "..", path := parent, isDir := true, isParent := true }]
    else []
  let acc := entries.foldl (browseStep showHidden cwd) (dirs0, [])
  acc.1 ++ acc.2

/-- Models `refreshBrowse` (main.go line 144): on a read error return with
the model unchanged; otherwise rebuild the catalog. -/
def refreshBrowse (m : Model) : Model :=
  match readDir m.fs m.cwd with
  | none => m
  | some entries => { m with items := catalogItems m.showHidden m.cwd entries }

/-- Models `handleInput` (main.go line 192): trim the buffer, return at
once when empty, otherwise commit (create or rename), switch to Browse and
refresh. -/
def handleInput (m : Model) : Model :=
  let input := trimSpace m.inputValue
  if input = "" then m
  else
    let fs :=
      if m.inputTarget = "create" then
        let full := joinPath m.cwd input
        let isDir := endsWithSep input
        let parent := dirName full
        let fs1 := mkdirAll m.fs parent
        if isDir then mkdirAll fs1 full else openFileExcl fs1 full
      else if m.inputTarget = "rename" then
        renameFs m.fs m.selected.path (joinPath m.cwd input)
      else m.fs
    refreshBrowse { m with fs := fs, mode := ModeBrowse }

/-- Input events the dispatcher handles on modeled state (key presses
whose effect is pure rendering or an external process are omitted). -/
inductive Event : Type
  | toggleHidden | enter | mark | yank | cut | paste
  | newKey | renameKey | deleteKey | back | commit
deriving DecidableEq, Repr

/-- One clipboard item processed by the paste loop (main.go line 248). -/
def pasteStep (clipMode : ClipboardMode) (cwd : Path) (fs : Fs) (src : Path) : Fs :=
  let dst := cwd ++ [baseName src]
  if clipMode = ClipCopy then copyFile fs src dst else renameFs fs src dst

/-- Models `Update` (main.go line 225) for key events, restricted to the
state the embedding tracks.  Unhandled events (and events whose only
effect is on an external collaborator) leave the model unchanged. -/
def update (m : Model) (e : Event) : Model :=
  match m.mode with
  | ModeBrowse =>
    match e with
    | Event.toggleHidden => refreshBrowse { m with showHidden := !m.showHidden }
    | Event.enter =>
      if m.selected.isDir then refreshBrowse { m with cwd := m.selected.path }
      else m
    | Event.mark =>
      if !m.selected.isParent then
        refreshBrowse { m with
          marked := mapSet m.marked m.selected.path (!(mapGet m.marked m.selected.path)) }
      else m
    | Event.yank =>
      refreshBrowse { m with
        clipboard := keys m.marked, clipMode := ClipCopy, marked := [] }
    | Event.cut =>
      refreshBrowse { m with
        clipboard := keys m.marked, clipMode := ClipCut, marked := [] }
    | Event.paste =>
      refreshBrowse { m with
        fs := m.clipboard.foldl (pasteStep m.clipMode m.cwd) m.fs,
        clipboard := [], clipMode := ClipNone }
    | Event.newKey =>
      { m with mode := ModeInput, inputValue := "", inputTarget := "create" }
    | Event.renameKey =>
      if !m.selected.isParent then
        { m with mode := ModeInput, inputValue := m.selected.name,
                 inputTarget := "rename" }
      else m
    | Event.deleteKey =>
      if !m.selected.isParent then
        refreshBrowse { m with
          fs := removeAll m.fs m.selected.path,
          marked := mapDelete m.marked m.selected.path }
      else m
    | _ => m
  | ModeInput =>
    match e with
    | Event.back => { m with mode := ModeBrowse }
    | Event.commit => handleInput m
    | _ => m
  | _ => m

/-! ## Basic lemmas about the filesystem association list -/

theorem fsGet_mem {fs : Fs} {p : Path} {v : Node} (h : fsGet fs p = some v) :
    (p, v) ∈ fs := by
  induction fs with
  | nil => simp [fsGet] at h
  | cons e rest ih =>
    by_cases he : e.1 = p
    · rw [fsGet, if_pos he] at h
      have : e = (p, v) := by
        cases e
        simp only [Option.some.injEq] at h
        simp_all
      rw [← this]
      exact List.mem_cons_self _ _
    · rw [fsGet, if_neg he] at h
      exact List.mem_cons_of_mem _ (ih h)

theorem fsGet_fsRemove (fs : Fs) (p q : Path) :
    fsGet (fsRemove fs p) q = if q = p then none else fsGet fs q := by
  by_cases hqp : q = p
  · subst hqp
    rw [if_pos rfl]
    induction fs with
    | nil => rfl
    | cons e rest ih =>
      by_cases he : e.1 = q
      · rw [fsRemove, if_pos he]; exact ih
      · rw [fsRemove, if_neg he, fsGet, if_neg he]; exact ih
  · rw [if_neg hqp]
    induction fs with
    | nil => rfl
    | cons e rest ih =>
      by_cases he : e.1 = p
      · have hq : ¬ e.1 = q := by rw [he]; exact fun hh => hqp hh.symm
        rw [fsRemove, if_pos he, fsGet, if_neg hq]; exact ih
      · by_cases hq : e.1 = q
        · rw [fsRemove, if_neg he, fsGet, if_pos hq, fsGet, if_pos hq]
        · rw [fsRemove, if_neg he, fsGet, if_neg hq, fsGet, if_neg hq]; exact ih

theorem fsGet_append (l1 l2 : Fs) (q : Path) :
    fsGet (l1 ++ l2) q =
      match fsGet l1 q with
      | some v => some v
      | none => fsGet l2 q := by
  induction l1 with
  | nil => simp [fsGet]
  | cons e rest ih =>
    by_cases he : e.1 = q
    · rw [List.cons_append, fsGet, if_pos he, fsGet, if_pos he]
    · rw [List.cons_append, fsGet, if_neg he, fsGet, if_neg he]; exact ih

theorem fsGet_fsSet (fs : Fs) (p : Path) (v : Node) (q : Path) :
    fsGet (fsSet fs p v) q = if q = p then some v else fsGet fs q := by
  unfold fsSet
  rw [fsGet_append, fsGet_fsRemove]
  by_cases hq : q = p
  · simp [fsGet, hq]
  · have hpq : ¬ p = q := fun hh => hq hh.symm
    rw [if_neg hq, if_neg hq]
    cases h : fsGet fs q
    · simp [fsGet, hpq]
    · rfl

theorem mem_fsRemove {fs : Fs} {p : Path} {e : Path × Node}
    (h : e ∈ fsRemove fs p) : e ∈ fs ∧ e.1 ≠ p := by
  induction fs with
  | nil => simp [fsRemove] at h
  | cons a rest ih =>
    by_cases ha : a.1 = p
    · rw [fsRemove, if_pos ha] at h
      exact ⟨List.mem_cons_of_mem _ (ih h).1, (ih h).2⟩
    · rw [fsRemove, if_neg ha] at h
      rcases List.mem_cons.mp h with rfl | h2
      · exact ⟨List.mem_cons_self _ _, ha⟩
      · exact ⟨List.mem_cons_of_mem _ (ih h2).1, (ih h2).2⟩

/-! ## Prefix helpers -/

theorem prefix_dropLast_of_ne {q p : Path} (h : q <+: p) (hne : q ≠ p) :
    q <+: p.dropLast := by
  obtain ⟨t, ht⟩ := h
  rcases List.eq_nil_or_concat t with rfl | ⟨t', a, rfl⟩
  · simp at ht; exact absurd ht hne
  · refine ⟨t', ?_⟩
    have : p = (q ++ t') ++ [a] := by simp [← ht]
    rw [this, List.dropLast_concat]

theorem concat_prefix_concat {l : Path} {a b : String}
    (h : (l ++ [a]) <+: (l ++ [b])) : a = b := by
  have hlen : (l ++ [a]).length = (l ++ [b]).length := by simp
  have := h.eq_of_length hlen
  have := List.append_cancel_left this
  simpa using this

theorem not_concat_prefix_self (l : Path) (a : String) : ¬ (l ++ [a]) <+: l := by
  intro h
  have := h.length_le
  simp at this

theorem not_concat_prefix_concat {l : Path} {a b : String} (hab : a ≠ b) :
    ¬ (l ++ [a]) <+: (l ++ [b]) := fun h => hab (concat_prefix_concat h)

/-! ## Lemmas about the marked-path map -/

theorem mapGet_mapSet_self (m : List (Path × Bool)) (k : Path) (v : Bool) :
    mapGet (mapSet m k v) k = v := by
  induction m with
  | nil => simp [mapSet, mapGet]
  | cons e rest ih =>
    by_cases he : e.1 = k
    · rw [mapSet, if_pos he, mapGet, if_pos rfl]
    · rw [mapSet, if_neg he, mapGet, if_neg he]; exact ih

theorem mapGet_mapSet_ne (m : List (Path × Bool)) (k q : Path) (v : Bool)
    (h : q ≠ k) : mapGet (mapSet m k v) q = mapGet m q := by
  have hk : ¬ (k = q) := fun hh => h hh.symm
  induction m with
  | nil => simp [mapSet, mapGet, hk]
  | cons e rest ih =>
    by_cases he : e.1 = k
    · have he' : ¬ e.1 = q := by rw [he]; exact hk
      rw [mapSet, if_pos he, mapGet, if_neg hk, mapGet, if_neg he']
    · by_cases hq : e.1 = q
      · rw [mapSet, if_neg he, mapGet, if_pos hq, mapGet, if_pos hq]
      · rw [mapSet, if_neg he, mapGet, if_neg hq, mapGet, if_neg hq]; exact ih

/-! ## Field-preservation lemmas for `refreshBrowse` -/

theorem refreshBrowse_fs (m : Model) : (refreshBrowse m).fs = m.fs := by
  unfold refreshBrowse
  cases readDir m.fs m.cwd <;> rfl

theorem refreshBrowse_mode (m : Model) : (refreshBrowse m).mode = m.mode := by
  unfold refreshBrowse
  cases readDir m.fs m.cwd <;> rfl

theorem refreshBrowse_cwd (m : Model) : (refreshBrowse m).cwd = m.cwd := by
  unfold refreshBrowse
  cases readDir m.fs m.cwd <;> rfl

theorem refreshBrowse_marked (m : Model) :
    (refreshBrowse m).marked = m.marked := by
  unfold refreshBrowse
  cases readDir m.fs m.cwd <;> rfl

theorem refreshBrowse_clipboard (m : Model) :
    (refreshBrowse m).clipboard = m.clipboard := by
  unfold refreshBrowse
  cases readDir m.fs m.cwd <;> rfl

theorem refreshBrowse_clipMode (m : Model) :
    (refreshBrowse m).clipMode = m.clipMode := by
  unfold refreshBrowse
  cases readDir m.fs m.cwd <;> rfl

theorem refreshBrowse_selected (m : Model) :
    (refreshBrowse m).selected = m.selected := by
  unfold refreshBrowse
  cases readDir m.fs m.cwd <;> rfl

theorem refreshBrowse_showHidden (m : Model) :
    (refreshBrowse m).showHidden = m.showHidden := by
  unfold refreshBrowse
  cases readDir m.fs m.cwd <;> rfl

theorem refreshBrowse_inputValue (m : Model) :
    (refreshBrowse m).inputValue = m.inputValue := by
  unfold refreshBrowse
  cases readDir m.fs m.cwd <;> rfl

theorem refreshBrowse_inputTarget (m : Model) :
    (refreshBrowse m).inputTarget = m.inputTarget := by
  unfold refreshBrowse
  cases readDir m.fs m.cwd <;> rfl

theorem refreshBrowse_of_none {m : Model} (h : readDir m.fs m.cwd = none) :
    refreshBrowse m = m := by
  unfold refreshBrowse
  rw [h]

theorem refreshBrowse_of_some {m : Model} {entries : List (String × Bool)}
    (h : readDir m.fs m.cwd = some entries) :
    refreshBrowse m = { m with items := catalogItems m.showHidden m.cwd entries } := by
  unfold refreshBrowse
  rw [h]

theorem refreshBrowse_idem (m : Model) :
    refreshBrowse (refreshBrowse m) = refreshBrowse m := by
  cases h : readDir m.fs m.cwd with
  | none => rw [refreshBrowse_of_none h, refreshBrowse_of_none h]
  | some entries =>
    rw [refreshBrowse_of_some h]
    have h2 : readDir ({ m with items := catalogItems m.showHidden m.cwd entries } : Model).fs
        ({ m with items := catalogItems m.showHidden m.cwd entries } : Model).cwd
        = some entries := h
    rw [refreshBrowse_of_some h2]

/-! ## Reduction lemmas for the dispatcher `update` -/

theorem update_commit (m : Model) (h : m.mode = ModeInput) :
    update m Event.commit = handleInput m := by
  unfold update
  rw [h]

theorem update_mark (m : Model) (h : m.mode = ModeBrowse) :
    update m Event.mark =
      if !m.selected.isParent then
        refreshBrowse { m with
          marked := mapSet m.marked m.selected.path
            (!(mapGet m.marked m.selected.path)) }
      else m := by
  unfold update
  rw [h]

theorem update_yank (m : Model) (h : m.mode = ModeBrowse) :
    update m Event.yank =
      refreshBrowse { m with
        clipboard := keys m.marked, clipMode := ClipCopy, marked := [] } := by
  unfold update
  rw [h]

theorem update_cut (m : Model) (h : m.mode = ModeBrowse) :
    update m Event.cut =
      refreshBrowse { m with
        clipboard := keys m.marked, clipMode := ClipCut, marked := [] } := by
  unfold update
  rw [h]

theorem update_paste (m : Model) (h : m.mode = ModeBrowse) :
    update m Event.paste =
      refreshBrowse { m with
        fs := m.clipboard.foldl (pasteStep m.clipMode m.cwd) m.fs,
        clipboard := [], clipMode := ClipNone } := by
  unfold update
  rw [h]

/-! ## Lemmas about `handleInput` -/

theorem handleInput_of_empty {m : Model} (h : trimSpace m.inputValue = "") :
    handleInput m = m := by
  simp [handleInput, h]

theorem handleInput_mode {m : Model} (h : trimSpace m.inputValue ≠ "") :
    (handleInput m).mode = ModeBrowse := by
  simp only [handleInput]
  rw [if_neg h, refreshBrowse_mode]

theorem handleInput_refreshed {m : Model} (h : trimSpace m.inputValue ≠ "") :
    refreshBrowse (handleInput m) = handleInput m := by
  simp only [handleInput]
  rw [if_neg h]
  exact refreshBrowse_idem _

theorem handleInput_fs_create {m : Model} (h : trimSpace m.inputValue ≠ "")
    (ht : m.inputTarget = "create") :
    (handleInput m).fs =
      (if endsWithSep (trimSpace m.inputValue) then
        mkdirAll (mkdirAll m.fs (dirName (joinPath m.cwd (trimSpace m.inputValue))))
          (joinPath m.cwd (trimSpace m.inputValue))
      else
        openFileExcl (mkdirAll m.fs (dirName (joinPath m.cwd (trimSpace m.inputValue))))
          (joinPath m.cwd (trimSpace m.inputValue))) := by
  simp only [handleInput]
  rw [if_neg h, refreshBrowse_fs]
  simp [ht]

/-! ## Idempotence of `trimSpace` -/

theorem dropWhile_isSpace_idem (l : List Char) :
    (l.dropWhile isSpace).dropWhile isSpace = l.dropWhile isSpace := by
  induction l with
  | nil => rfl
  | cons a t ih =>
    by_cases h : isSpace a = true
    · rw [List.dropWhile_cons, if_pos h]; exact ih
    · rw [List.dropWhile_cons, if_neg h, List.dropWhile_cons, if_neg h]

theorem dropWhile_eq_self_of_prefix {l l' : List Char}
    (hl : l.dropWhile isSpace = l) (hp : l' <+: l) :
    l'.dropWhile isSpace = l' := by
  cases l' with
  | nil => rfl
  | cons a t =>
    have ha : ¬ isSpace a = true := by
      intro ha'
      obtain ⟨s, hs⟩ := hp
      rw [← hs, List.cons_append, List.dropWhile_cons, if_pos ha'] at hl
      have hlen := congrArg List.length hl
      have hle := (List.dropWhile_suffix (l := t ++ s) isSpace).length_le
      simp only [List.length_cons, List.length_append] at hlen hle
      omega
    rw [List.dropWhile_cons, if_neg ha]

theorem trimSpace_idem (s : String) : trimSpace (trimSpace s) = trimSpace s := by
  unfold trimSpace
  have hd : (String.mk (((s.data.dropWhile isSpace).reverse.dropWhile isSpace).reverse)).data
      = ((s.data.dropWhile isSpace).reverse.dropWhile isSpace).reverse := rfl
  rw [hd]
  have h1 : ((s.data.dropWhile isSpace).reverse.dropWhile isSpace).reverse
      <+: s.data.dropWhile isSpace := by
    rw [← List.reverse_suffix, List.reverse_reverse]
    exact List.dropWhile_suffix isSpace
  have h2 : (((s.data.dropWhile isSpace).reverse.dropWhile isSpace).reverse).dropWhile isSpace
      = ((s.data.dropWhile isSpace).reverse.dropWhile isSpace).reverse :=
    dropWhile_eq_self_of_prefix (dropWhile_isSpace_idem s.data) h1
  rw [h2, List.reverse_reverse, dropWhile_isSpace_idem]

/-! ## The claims -/

/-- Model used to evidence claim C1's divergence: Browse mode in
directory `/d`, selection on the regular file `/d/a`, nothing marked. -/
def c1Start : Model :=
  { mode := ModeBrowse, cwd := ["d"], showHidden := false, items := []
  , selected := { name := "a", path := ["d", "a"], isDir := false, isParent := false }
  , marked := [], clipboard := [], clipMode := ClipNone
  , inputValue := "", inputTarget := ""
  , fs := [(["d"], Node.dir), (["d", "a"], Node.file "x")] }

/-- Claim C1 (code bug evidence): mark `/d/a`, mark it again (so its
SelectionSet membership is back to `false` — the map still holds the key
with value `false`), then yank.  The `keys` helper snapshots every key of
the map regardless of its value, so the clipboard contains `/d/a` even
though it is not currently marked, contradicting the claim (and §4.1 of
the spec) that the snapshot holds exactly the paths that are members of
SelectionSet at that moment.  The mode and clearing parts of the claim do
hold, as the last two conjuncts show. -/
theorem c1_yank_snapshots_stale_key :
    mapGet (update (update c1Start Event.mark) Event.mark).marked ["d", "a"] = false
    ∧ (update (update (update c1Start Event.mark) Event.mark) Event.yank).clipboard
        = [["d", "a"]]
    ∧ (update (update (update c1Start Event.mark) Event.mark) Event.yank).clipMode
        = ClipCopy
    ∧ (update (update (update c1Start Event.mark) Event.mark) Event.yank).marked
        = [] := by
  decide

/-- Model used for claim C4's counterexample: Input mode with an empty
text buffer. -/
def c4Start : Model :=
  { mode := ModeInput, cwd := ["d"], showHidden := false, items := []
  , selected := { name := "a", path := ["d", "a"], isDir := false, isParent := false }
  , marked := [], clipboard := [], clipMode := ClipNone
  , inputValue := "", inputTarget := "create"
  , fs := [(["d"], Node.dir)] }

/-- Claim C4 counterexample: committing an empty buffer does not return
to Browse mode — `handleInput` returns before `m.mode = ModeBrowse` is
reached (main.go line 194), so the mode stays Input. -/
theorem c4_empty_commit_keeps_input_mode :
    (update c4Start Event.commit).mode ≠ ModeBrowse := by
  decide

/-- Claim C4 (amended): on a commit event in Input mode the dispatcher
hands the buffer to the text-entry commit logic; when the trimmed buffer
is non-empty the mode then becomes Browse and the catalog is refreshed
(the resulting state is a fixed point of `refreshBrowse`); when the
trimmed buffer is empty the commit is a complete no-op — a filesystem
no-op that also leaves the mode in Input. -/
theorem c4_commit_behaviour (m : Model) (h : m.mode = ModeInput) :
    (trimSpace m.inputValue = "" → update m Event.commit = m)
    ∧ (trimSpace m.inputValue ≠ "" →
        (update m Event.commit).mode = ModeBrowse
        ∧ refreshBrowse (update m Event.commit) = update m Event.commit) := by
  rw [update_commit m h]
  exact ⟨fun he => handleInput_of_empty he,
    fun hne => ⟨handleInput_mode hne, handleInput_refreshed hne⟩⟩

/-- Witness for C4's amended theorem at a concrete state: in Input mode
with buffer `"x"` (target `"rename"` on `/d/a`), commit switches to
Browse. -/
theorem c4_commit_behaviour_witness :
    ({ c4Start with inputValue := "x", inputTarget := "rename" } : Model).mode = ModeInput
    ∧ trimSpace "x" ≠ ""
    ∧ (update { c4Start with inputValue := "x", inputTarget := "rename" } Event.commit).mode
        = ModeBrowse :=
  ⟨by decide, by decide,
    ((c4_commit_behaviour { c4Start with inputValue := "x", inputTarget := "rename" }
      (by decide)).2 (by decide)).1⟩

/-- Claim C5: for every paste event in Browse mode, whatever the clipboard
and filesystem contents, the clipboard is cleared afterwards — mode `None`
and empty snapshot. -/
theorem c5_paste_clears_clipboard (m : Model) (h : m.mode = ModeBrowse) :
    (update m Event.paste).clipboard = [] ∧ (update m Event.paste).clipMode = ClipNone := by
  rw [update_paste m h]
  rw [refreshBrowse_clipboard, refreshBrowse_clipMode]
  exact ⟨rfl, rfl⟩

/-- Model used for claim C5's witness: a paste in Browse mode whose only
clipboard item cannot be copied (the source is missing), showing the
clearing is independent of per-item success. -/
def c5Start : Model :=
  { mode := ModeBrowse, cwd := ["d"], showHidden := false, items := []
  , selected := { name := "a", path := ["d", "a"], isDir := false, isParent := false }
  , marked := [], clipboard := [["gone"]], clipMode := ClipCut
  , inputValue := "", inputTarget := ""
  , fs := [(["d"], Node.dir)] }

/-- Witness for C5 at a concrete state. -/
theorem c5_paste_clears_clipboard_witness :
    c5Start.mode = ModeBrowse
    ∧ (update c5Start Event.paste).clipboard = []
    ∧ (update c5Start Event.paste).clipMode = ClipNone :=
  ⟨by decide, (c5_paste_clears_clipboard c5Start (by decide)).1,
    (c5_paste_clears_clipboard c5Start (by decide)).2⟩

/-- Claim C8: marking is an involution on SelectionSet membership.  For a
non-parent-link selection, one mark event toggles the selected path's
membership and leaves every other path's membership unchanged, and two
mark events restore every path's membership; a mark event on the
parent-link entry leaves the marked map untouched. -/
theorem c8_mark_involution (m : Model) (h : m.mode = ModeBrowse) :
    (m.selected.isParent = false →
      mapGet (update m Event.mark).marked m.selected.path
          = !(mapGet m.marked m.selected.path)
      ∧ (∀ q : Path, q ≠ m.selected.path →
          mapGet (update m Event.mark).marked q = mapGet m.marked q)
      ∧ (∀ q : Path,
          mapGet (update (update m Event.mark) Event.mark).marked q
            = mapGet m.marked q))
    ∧ (m.selected.isParent = true → (update m Event.mark).marked = m.marked) := by
  constructor
  · intro hp
    have h1 : update m Event.mark =
        refreshBrowse { m with
          marked := mapSet m.marked m.selected.path
            (!(mapGet m.marked m.selected.path)) } := by
      rw [update_mark m h, hp]
      rfl
    have hm1 : (update m Event.mark).marked =
        mapSet m.marked m.selected.path (!(mapGet m.marked m.selected.path)) := by
      rw [h1, refreshBrowse_marked]
    have hmode1 : (update m Event.mark).mode = ModeBrowse := by
      rw [h1, refreshBrowse_mode]; exact h
    have hsel1 : (update m Event.mark).selected = m.selected := by
      rw [h1, refreshBrowse_selected]
    refine ⟨?_, ?_, ?_⟩
    · rw [hm1, mapGet_mapSet_self]
    · intro q hq
      rw [hm1, mapGet_mapSet_ne _ _ _ _ hq]
    · intro q
      have h2 : (update (update m Event.mark) Event.mark).marked =
          mapSet (update m Event.mark).marked (update m Event.mark).selected.path
            (!(mapGet (update m Event.mark).marked (update m Event.mark).selected.path)) := by
        have hp2 : (update m Event.mark).selected.isParent = false := by
          rw [hsel1]; exact hp
        rw [update_mark _ hmode1, hp2]
        simp only [Bool.not_false, if_true]
        rw [refreshBrowse_marked]
      rw [h2, hsel1, hm1, mapGet_mapSet_self]
      by_cases hq : q = m.selected.path
      · subst hq
        rw [mapGet_mapSet_self, Bool.not_not]
      · rw [mapGet_mapSet_ne _ _ _ _ hq, mapGet_mapSet_ne _ _ _ _ hq]
  · intro hp
    rw [update_mark m h, hp]
    rfl

/-- Model used for claim C8's witness. -/
def c8Start : Model :=
  { mode := ModeBrowse, cwd := ["d"], showHidden := false, items := []
  , selected := { name := "a", path := ["d", "a"], isDir := false, isParent := false }
  , marked := [(["d", "b"], true)], clipboard := [], clipMode := ClipNone
  , inputValue := "", inputTarget := ""
  , fs := [(["d"], Node.dir), (["d", "a"], Node.file "x"), (["d", "b"], Node.file "y")] }

/-- Witness for C8 at a concrete state: double-marking `/d/a` restores its
(unmarked) membership. -/
theorem c8_mark_involution_witness :
    c8Start.mode = ModeBrowse
    ∧ c8Start.selected.isParent = false
    ∧ mapGet (update (update c8Start Event.mark) Event.mark).marked ["d", "a"]
        = mapGet c8Start.marked ["d", "a"] :=
  ⟨by decide, by decide,
    ((c8_mark_involution c8Start (by decide)).1 (by decide)).2.2 ["d", "a"]⟩

/-- Claim C9: when reading the current directory fails during a catalog
refresh, `refreshBrowse` leaves the model — in particular the displayed
catalog — unchanged.  (`refreshBrowse` is a total function, so the
embedding has no crashing behaviour to exclude; the early `return` on a
`ReadDir` error is exactly the `none` branch here.) -/
theorem c9_refresh_error_unchanged (m : Model) (h : readDir m.fs m.cwd = none) :
    refreshBrowse m = m :=
  refreshBrowse_of_none h

/-- Model used for claim C9's witness: the current directory does not
exist. -/
def c9Start : Model :=
  { mode := ModeBrowse, cwd := ["gone"], showHidden := false
  , items := [{ name := "stale", path := ["gone", "stale"], isDir := false, isParent := false }]
  , selected := { name := "stale", path := ["gone", "stale"], isDir := false, isParent := false }
  , marked := [], clipboard := [], clipMode := ClipNone
  , inputValue := "", inputTarget := "", fs := [] }

/-- Witness for C9 at a concrete state: the directory was deleted, the
catalog (including its stale item) stays as it was. -/
theorem c9_refresh_error_unchanged_witness :
    readDir c9Start.fs c9Start.cwd = none ∧ refreshBrowse c9Start = c9Start :=
  ⟨by decide, c9_refresh_error_unchanged c9Start (by decide)⟩

/-- Claim C10: on commit the buffer is used whitespace-trimmed.  A buffer
that trims to empty is a complete no-op (like an empty buffer), and the
filesystem effect of any commit equals the effect of committing the
already-trimmed buffer — so a created name or rename destination never
carries leading or trailing whitespace. -/
theorem c10_commit_trims_buffer (m : Model) (h : m.mode = ModeInput) :
    (trimSpace m.inputValue = "" → update m Event.commit = m)
    ∧ (update m Event.commit).fs
        = (update { m with inputValue := trimSpace m.inputValue } Event.commit).fs := by
  constructor
  · intro he
    rw [update_commit m h]
    exact handleInput_of_empty he
  · rw [update_commit m h,
      update_commit { m with inputValue := trimSpace m.inputValue } h]
    by_cases he : trimSpace m.inputValue = ""
    · rw [handleInput_of_empty he]
      have he2 : trimSpace ({ m with inputValue := trimSpace m.inputValue } : Model).inputValue
          = "" := by
        show trimSpace (trimSpace m.inputValue) = ""
        rw [trimSpace_idem, he]
      rw [handleInput_of_empty he2]
    · simp only [handleInput, trimSpace_idem]
      rw [if_neg he, if_neg he, refreshBrowse_fs, refreshBrowse_fs]

/-- Model used for claim C10's witness. -/
def c10Start : Model :=
  { mode := ModeInput, cwd := ["d"], showHidden := false, items := []
  , selected := { name := "a", path := ["d", "a"], isDir := false, isParent := false }
  , marked := [], clipboard := [], clipMode := ClipNone
  , inputValue := "   ", inputTarget := "create"
  , fs := [(["d"], Node.dir)] }

/-- Witness for C10 at a concrete state: a whitespace-only buffer commits
to a complete no-op. -/
theorem c10_commit_trims_buffer_witness :
    c10Start.mode = ModeInput
    ∧ trimSpace c10Start.inputValue = ""
    ∧ update c10Start Event.commit = c10Start :=
  ⟨by decide, by decide, (c10_commit_trims_buffer c10Start (by decide)).1 (by decide)⟩

/-! ## Structure of the catalog (claims C6 and C7) -/

theorem catalog_fold (sh : Bool) (cwd : Path) (entries : List (String × Bool)) :
    ∀ (d0 f0 : List FileItem),
    entries.foldl (browseStep sh cwd) (d0, f0) =
      (d0 ++ (entries.filter
          (fun e => (sh || !(startsWithDot e.1)) && e.2)).map (mkFileItem cwd),
       f0 ++ (entries.filter
          (fun e => (sh || !(startsWithDot e.1)) && !e.2)).map (mkFileItem cwd)) := by
  induction entries with
  | nil => intro d0 f0; simp
  | cons e t ih =>
    intro d0 f0
    rw [List.foldl_cons]
    by_cases hskip : (!sh && startsWithDot e.1) = true
    · have hv : (sh || !(startsWithDot e.1)) = false := by
        have hs : sh = false := by
          cases hsh : sh
          · rfl
          · rw [hsh] at hskip; simp at hskip
        have hd : startsWithDot e.1 = true := by
          rw [hs] at hskip; simpa using hskip
        rw [hs, hd]; rfl
      rw [show browseStep sh cwd (d0, f0) e = (d0, f0) from by
        simp [browseStep, hskip]]
      rw [ih d0 f0]
      simp [List.filter_cons, hv]
    · have hv : (sh || !(startsWithDot e.1)) = true := by
        cases hsh : sh
        · cases hdot : startsWithDot e.1
          · simp
          · rw [hsh, hdot] at hskip; simp at hskip
        · simp
      cases h2 : e.2
      · rw [show browseStep sh cwd (d0, f0) e = (d0, f0 ++ [mkFileItem cwd e]) from by
          simp [browseStep, hskip, h2]]
        rw [ih d0 (f0 ++ [mkFileItem cwd e])]
        simp [List.filter_cons, hv, h2]
      · rw [show browseStep sh cwd (d0, f0) e = (d0 ++ [mkFileItem cwd e], f0) from by
          simp [browseStep, hskip, h2]]
        rw [ih (d0 ++ [mkFileItem cwd e]) f0]
        simp [List.filter_cons, hv, h2]

theorem catalogItems_eq (sh : Bool) (cwd : Path) (entries : List (String × Bool)) :
    catalogItems sh cwd entries =
      (if dirName cwd = cwd then [] else
        [{ name := "..", path := dirName cwd, isDir := true, isParent := true }])
      ++ (entries.filter
          (fun e => (sh || !(startsWithDot e.1)) && e.2)).map (mkFileItem cwd)
      ++ (entries.filter
          (fun e => (sh || !(startsWithDot e.1)) && !e.2)).map (mkFileItem cwd) := by
  simp only [catalogItems]
  rw [catalog_fold]
  by_cases hp : dirName cwd = cwd
  · simp [hp]
  · simp [hp]

/-- Claim C6: for every directory whose listing succeeds and every
`showHidden` flag, the refreshed catalog is exactly — in order — the
parent-link entry pointing at `dirName cwd` (present precisely when
`dirName cwd` differs from `cwd`), then the visible directory entries,
then the visible non-directory entries, each partition preserving the
enumeration order of the underlying listing. -/
theorem c6_catalog_structure (m : Model) (entries : List (String × Bool))
    (h : readDir m.fs m.cwd = some entries) :
    (refreshBrowse m).items =
      (if dirName m.cwd = m.cwd then [] else
        [{ name := "..", path := dirName m.cwd, isDir := true, isParent := true }])
      ++ (entries.filter
          (fun e => (m.showHidden || !(startsWithDot e.1)) && e.2)).map (mkFileItem m.cwd)
      ++ (entries.filter
          (fun e => (m.showHidden || !(startsWithDot e.1)) && !e.2)).map (mkFileItem m.cwd) := by
  rw [refreshBrowse_of_some h]
  exact catalogItems_eq m.showHidden m.cwd entries

/-- Model used for claim C6's witness — the spec's literal scenario 1:
directory `/r` holding `a.txt`, `b.txt`, subdirectory `d` and hidden file
`.cfg`, with `showHidden = false`. -/
def c6Start : Model :=
  { mode := ModeBrowse, cwd := ["r"], showHidden := false, items := []
  , selected := { name := "a.txt", path := ["r", "a.txt"], isDir := false, isParent := false }
  , marked := [], clipboard := [], clipMode := ClipNone
  , inputValue := "", inputTarget := ""
  , fs := [(["r"], Node.dir), (["r", "a.txt"], Node.file "A")
          , (["r", "b.txt"], Node.file "B"), (["r", "d"], Node.dir)
          , (["r", ".cfg"], Node.file "C")] }

/-- The sorted listing `readDir` produces for `c6Start`. -/
def c6Entries : List (String × Bool) :=
  [(".cfg", false), ("a.txt", false), ("b.txt", false), ("d", true)]

/-- Witness for C6 at the spec's scenario 1 (the right-hand side evaluates
to the catalog `[.., d, a.txt, b.txt]`). -/
theorem c6_catalog_structure_witness :
    readDir c6Start.fs c6Start.cwd = some c6Entries
    ∧ (refreshBrowse c6Start).items =
      (if dirName c6Start.cwd = c6Start.cwd then [] else
        [{ name := "..", path := dirName c6Start.cwd, isDir := true, isParent := true }])
      ++ (c6Entries.filter
          (fun e => (c6Start.showHidden || !(startsWithDot e.1)) && e.2)).map (mkFileItem c6Start.cwd)
      ++ (c6Entries.filter
          (fun e => (c6Start.showHidden || !(startsWithDot e.1)) && !e.2)).map (mkFileItem c6Start.cwd) :=
  ⟨by decide, c6_catalog_structure c6Start c6Entries (by decide)⟩

/-- Model used for claim C7's counterexample: `/r` holds a plain file `a`
and a hidden file `.h`; the directory is not the filesystem root, so the
catalog carries the parent link `..`. -/
def c7Start : Model :=
  { mode := ModeBrowse, cwd := ["r"], showHidden := false, items := []
  , selected := { name := "a", path := ["r", "a"], isDir := false, isParent := false }
  , marked := [], clipboard := [], clipMode := ClipNone
  , inputValue := "", inputTarget := ""
  , fs := [(["r"], Node.dir), (["r", "a"], Node.file "A")
          , (["r", ".h"], Node.file "H")] }

/-- Claim C7 counterexample (to the claim as literally stated): the
parent-link entry `..` also has a name beginning with a dot, but it is
present in both catalogs — it is never subject to the hidden-entry
filter.  Removing every dot-prefixed entry from the `showHidden = true`
catalog therefore also removes `..` and does not yield the
`showHidden = false` catalog. -/
theorem c7_literal_counterexample :
    (refreshBrowse c7Start).items
      ≠ ((refreshBrowse { c7Start with showHidden := true }).items).filter
          (fun i => !(startsWithDot i.name)) := by
  decide

/-- Claim C7 (amended): for every directory whose listing succeeds, the
`showHidden = false` catalog is exactly the subsequence of the
`showHidden = true` catalog obtained by removing the non-parent-link
entries whose names begin with a dot; the relative order of the remaining
entries is unaffected. -/
theorem c7_hidden_toggle (m : Model) (entries : List (String × Bool))
    (h : readDir m.fs m.cwd = some entries) :
    (refreshBrowse { m with showHidden := false }).items
      = ((refreshBrowse { m with showHidden := true }).items).filter
          (fun i => i.isParent || !(startsWithDot i.name)) := by
  have h0 : readDir ({ m with showHidden := false } : Model).fs
      ({ m with showHidden := false } : Model).cwd = some entries := h
  have h1 : readDir ({ m with showHidden := true } : Model).fs
      ({ m with showHidden := true } : Model).cwd = some entries := h
  rw [refreshBrowse_of_some h0, refreshBrowse_of_some h1]
  show catalogItems false m.cwd entries
      = (catalogItems true m.cwd entries).filter
          (fun i => i.isParent || !(startsWithDot i.name))
  rw [catalogItems_eq, catalogItems_eq]
  rw [List.filter_append, List.filter_append]
  congr 1
  · congr 1
    · by_cases hp : dirName m.cwd = m.cwd
      · simp [hp]
      · simp [hp]
    · rw [List.filter_map, List.filter_filter]
      refine congrArg _ (List.filter_congr ?_)
      intro x hx
      simp [mkFileItem]
  · rw [List.filter_map, List.filter_filter]
    refine congrArg _ (List.filter_congr ?_)
    intro x hx
    simp [mkFileItem]

/-- Witness for C7's amended theorem at the `c7Start` scenario. -/
theorem c7_hidden_toggle_witness :
    readDir c7Start.fs c7Start.cwd = some [(".h", false), ("a", false)]
    ∧ (refreshBrowse { c7Start with showHidden := false }).items
      = ((refreshBrowse { c7Start with showHidden := true }).items).filter
          (fun i => i.isParent || !(startsWithDot i.name)) :=
  ⟨by decide, c7_hidden_toggle c7Start [(".h", false), ("a", false)] (by decide)⟩

/-! ## Lemmas about `mkdirAll` (claim C3) -/

/-- Tree-consistency of the filesystem model: every proper, non-root
prefix of a stored path is a directory.  Real filesystems always satisfy
this; `os.MkdirAll` relies on it when it returns successfully at once on
an existing directory. -/
def Wf (fs : Fs) : Prop :=
  ∀ e ∈ fs, ∀ q ∈ e.1.inits, q ≠ [] → q ≠ e.1 → fsGet fs q = some Node.dir

instance (fs : Fs) : Decidable (Wf fs) := by
  unfold Wf
  infer_instance

theorem isDirNode_true {o : Option Node} (h : isDirNode o = true) :
    o = some Node.dir := by
  match o with
  | none => simp [isDirNode] at h
  | some Node.dir => rfl
  | some (Node.file c) => simp [isDirNode] at h

theorem dirExists_true {fs : Fs} {p : Path} (h : dirExists fs p = true) :
    p = [] ∨ fsGet fs p = some Node.dir := by
  unfold dirExists at h
  cases hp : p.isEmpty
  · rw [hp] at h
    simp at h
    right
    exact isDirNode_true h
  · left
    exact List.isEmpty_iff.mp hp

theorem not_prefix_dropLast {p : Path} (hp : p ≠ []) : ¬ p <+: dirName p := by
  intro h
  have h1 := h.length_le
  have h2 : (dirName p).length = p.length - 1 := List.length_dropLast p
  have h3 : 0 < p.length := List.length_pos.mpr hp
  omega

theorem ne_of_prefix_dropLast {q p : Path} (hp : p ≠ []) (h : q <+: dirName p) :
    q ≠ p := by
  intro hc
  subst hc
  exact not_prefix_dropLast hp h

theorem mkdirAllFuel_unchanged (n : Nat) (fs : Fs) (p q : Path)
    (h : ¬ q <+: p ∨ q = []) :
    fsGet (mkdirAllFuel n fs p) q = fsGet fs q := by
  induction n generalizing fs p with
  | zero => rfl
  | succ n ih =>
    simp only [mkdirAllFuel]
    by_cases hp : p = []
    · rw [if_pos hp]
    · rw [if_neg hp]
      cases hfs : fsGet fs p with
      | some v => rfl
      | none =>
        simp only []
        have hq1 : ¬ q <+: dirName p ∨ q = [] := by
          rcases h with h | h
          · left; intro hc; exact h (hc.trans (List.dropLast_prefix p))
          · right; exact h
        have hqp : q ≠ p := by
          rcases h with h | h
          · intro hc; rw [hc] at h; exact h (List.prefix_refl p)
          · intro hc; rw [← hc] at hp; exact hp h
        by_cases hd : dirExists (mkdirAllFuel n fs (dirName p)) (dirName p) = true
        · rw [if_pos hd, fsGet_fsSet, if_neg hqp]
          exact ih fs (dirName p) hq1
        · rw [if_neg hd]
          exact ih fs (dirName p) hq1

theorem mkdirAllFuel_cases (n : Nat) (fs : Fs) (p q : Path) :
    fsGet (mkdirAllFuel n fs p) q = fsGet fs q
    ∨ (fsGet fs q = none ∧ fsGet (mkdirAllFuel n fs p) q = some Node.dir) := by
  induction n generalizing fs p with
  | zero => left; rfl
  | succ n ih =>
    simp only [mkdirAllFuel]
    by_cases hp : p = []
    · rw [if_pos hp]; left; rfl
    · rw [if_neg hp]
      cases hfs : fsGet fs p with
      | some v => left; rfl
      | none =>
        simp only []
        by_cases hd : dirExists (mkdirAllFuel n fs (dirName p)) (dirName p) = true
        · rw [if_pos hd]
          by_cases hqp : q = p
          · subst hqp
            right
            exact ⟨hfs, by rw [fsGet_fsSet, if_pos rfl]⟩
          · rw [fsGet_fsSet, if_neg hqp]
            exact ih fs (dirName p)
        · rw [if_neg hd]
          exact ih fs (dirName p)

theorem mkdirAllFuel_creates (n : Nat) (fs : Fs) (p : Path)
    (hn : p.length ≤ n) (hwf : Wf fs)
    (hnf : ∀ q ∈ p.inits, isFileNode (fsGet fs q) = false) :
    ∀ q ∈ p.inits, q ≠ [] → fsGet (mkdirAllFuel n fs p) q = some Node.dir := by
  induction n generalizing fs p with
  | zero =>
    intro q hq hqne
    have hp : p = [] := by
      cases p
      · rfl
      · simp at hn
    subst hp
    rw [List.mem_inits] at hq
    exact absurd (List.prefix_nil.mp hq) hqne
  | succ n ih =>
    intro q hq hqne
    simp only [mkdirAllFuel]
    by_cases hp : p = []
    · rw [if_pos hp]
      subst hp
      rw [List.mem_inits] at hq
      exact absurd (List.prefix_nil.mp hq) hqne
    · rw [if_neg hp]
      cases hfs : fsGet fs p with
      | some v =>
        have hvdir : v = Node.dir := by
          have hv := hnf p ((List.mem_inits _ _).mpr (List.prefix_refl p))
          rw [hfs] at hv
          match v, hv with
          | Node.dir, _ => rfl
        subst hvdir
        by_cases hqp : q = p
        · subst hqp; exact hfs
        · exact hwf (p, Node.dir) (fsGet_mem hfs) q hq hqne hqp
      | none =>
        simp only []
        have hlen : (dirName p).length ≤ n := by
          have h2 : (dirName p).length = p.length - 1 := List.length_dropLast p
          have h3 : 0 < p.length := List.length_pos.mpr hp
          omega
        have hnf1 : ∀ r ∈ (dirName p).inits, isFileNode (fsGet fs r) = false := by
          intro r hr
          exact hnf r ((List.mem_inits _ _).mpr
            (((List.mem_inits _ _).mp hr).trans (List.dropLast_prefix p)))
        have ihall := ih fs (dirName p) hlen hwf hnf1
        have hdirex : dirExists (mkdirAllFuel n fs (dirName p)) (dirName p) = true := by
          by_cases hdp : dirName p = []
          · rw [hdp]; rfl
          · have hd := ihall (dirName p) ((List.mem_inits _ _).mpr (List.prefix_refl _)) hdp
            unfold dirExists
            rw [hd]
            simp [isDirNode]
        rw [if_pos hdirex, fsGet_fsSet]
        by_cases hqp : q = p
        · rw [if_pos hqp]
        · rw [if_neg hqp]
          have hqpre : q <+: dirName p :=
            prefix_dropLast_of_ne ((List.mem_inits _ _).mp hq) hqp
          exact ihall q ((List.mem_inits _ _).mpr hqpre) hqne

theorem mkdirAllFuel_wf (n : Nat) (fs : Fs) (p : Path) (hwf : Wf fs) :
    Wf (mkdirAllFuel n fs p) := by
  induction n generalizing fs p with
  | zero => exact hwf
  | succ n ih =>
    simp only [mkdirAllFuel]
    by_cases hp : p = []
    · rw [if_pos hp]; exact hwf
    · rw [if_neg hp]
      cases hfs : fsGet fs p with
      | some v => exact hwf
      | none =>
        simp only []
        have hwf1 : Wf (mkdirAllFuel n fs (dirName p)) := ih fs (dirName p) hwf
        by_cases hd : dirExists (mkdirAllFuel n fs (dirName p)) (dirName p) = true
        · rw [if_pos hd]
          intro e he q hq hqne hqe
          rw [fsGet_fsSet]
          by_cases hqp : q = p
          · subst hqp; rw [if_pos rfl]
          · rw [if_neg hqp]
            have he2 : e ∈ fsRemove (mkdirAllFuel n fs (dirName p)) p ∨ e = (p, Node.dir) := by
              unfold fsSet at he
              rcases List.mem_append.mp he with h2 | h2
              · left; exact h2
              · right; simpa using h2
            rcases he2 with he2 | he2
            · exact hwf1 e (mem_fsRemove he2).1 q hq hqne hqe
            · subst he2
              simp only at hq hqe
              have hqpre : q <+: dirName p :=
                prefix_dropLast_of_ne ((List.mem_inits _ _).mp hq) hqe
              by_cases hql : q = dirName p
              · subst hql
                have hdl : dirName p ≠ [] := hqne
                rcases dirExists_true hd with h3 | h3
                · exact absurd h3 hdl
                · exact h3
              · have hdl : dirName p ≠ [] := by
                  intro hc
                  rw [hc] at hqpre
                  exact hqne (List.prefix_nil.mp hqpre)
                rcases dirExists_true hd with h3 | h3
                · exact absurd h3 hdl
                · exact hwf1 (dirName p, Node.dir) (fsGet_mem h3) q
                    ((List.mem_inits _ _).mpr hqpre) hqne hql
        · rw [if_neg hd]
          exact hwf1

theorem mkdirAll_unchanged (fs : Fs) (p q : Path) (h : ¬ q <+: p ∨ q = []) :
    fsGet (mkdirAll fs p) q = fsGet fs q :=
  mkdirAllFuel_unchanged p.length fs p q h

theorem mkdirAll_cases (fs : Fs) (p q : Path) :
    fsGet (mkdirAll fs p) q = fsGet fs q
    ∨ (fsGet fs q = none ∧ fsGet (mkdirAll fs p) q = some Node.dir) :=
  mkdirAllFuel_cases p.length fs p q

theorem mkdirAll_creates (fs : Fs) (p : Path) (hwf : Wf fs)
    (hnf : ∀ q ∈ p.inits, isFileNode (fsGet fs q) = false) :
    ∀ q ∈ p.inits, q ≠ [] → fsGet (mkdirAll fs p) q = some Node.dir :=
  mkdirAllFuel_creates p.length fs p (Nat.le_refl _) hwf hnf

theorem mkdirAll_wf (fs : Fs) (p : Path) (hwf : Wf fs) : Wf (mkdirAll fs p) :=
  mkdirAllFuel_wf p.length fs p hwf

/-! ## Lemmas about `copyFile`, `renameFs` and the paste loop (claim C2) -/

theorem isPrefixOf_false_iff {l1 l2 : Path} :
    l1.isPrefixOf l2 = false ↔ ¬ l1 <+: l2 := by
  constructor
  · intro h hc
    have := List.isPrefixOf_iff_prefix.mpr hc
    rw [h] at this
    exact Bool.false_ne_true this
  · intro h
    cases hb : l1.isPrefixOf l2
    · rfl
    · exact absurd (List.isPrefixOf_iff_prefix.mp hb) h

theorem append_ne_self_of_ne_nil {l t : Path} (ht : t ≠ []) : l ++ t ≠ l := by
  intro h
  have h2 := congrArg List.length h
  simp only [List.length_append] at h2
  have : t.length = 0 := by omega
  exact ht (List.length_eq_zero.mp this)

theorem copyFile_pres (fs : Fs) (src dst q : Path) (hq : q ≠ dst) :
    fsGet (copyFile fs src dst) q = fsGet fs q := by
  unfold copyFile
  by_cases h1 : dst = []
  · rw [if_pos h1]
  · rw [if_neg h1]
    by_cases h2 : isDirNode (fsGet fs dst) = true
    · rw [if_pos h2]
    · rw [if_neg h2]
      by_cases h3 : dirExists fs (dirName dst) = true
      · rw [if_pos h3]
        cases hs : fsGet fs src with
        | none => simp only []; rw [fsGet_fsSet, if_neg hq]
        | some v =>
          cases v with
          | dir => simp only []; rw [fsGet_fsSet, if_neg hq]
          | file c => simp only []; rw [fsGet_fsSet, if_neg hq]
      · rw [if_neg h3]

theorem copyFile_success (fs : Fs) (src dst : Path) (c : String)
    (hsrc : fsGet fs src = some (Node.file c)) (hdz : dst ≠ [])
    (hnd : isDirNode (fsGet fs dst) = false)
    (hde : dirExists fs (dirName dst) = true) :
    copyFile fs src dst = fsSet fs dst (Node.file c) := by
  have hnd' : ¬ isDirNode (fsGet fs dst) = true := by
    rw [hnd]; exact Bool.false_ne_true
  unfold copyFile
  rw [if_neg hdz, if_neg hnd', if_pos hde, hsrc]

theorem fsGet_map_remap_dst (src dst : Path) :
    ∀ l : Fs, (∀ e ∈ l, e.1 ≠ dst) →
      fsGet (l.map (remapEntry src dst)) dst = fsGet l src := by
  intro l
  induction l with
  | nil => intro h; rfl
  | cons e t ih =>
    intro h
    rw [List.map_cons]
    by_cases hp : src.isPrefixOf e.1 = true
    · by_cases he : e.1 = src
      · have h1 : remapEntry src dst e = (dst, e.2) := by
          unfold remapEntry
          rw [if_pos hp, he, List.drop_length, List.append_nil]
        rw [h1, fsGet, if_pos rfl, fsGet, if_pos he]
      · obtain ⟨tl, htl⟩ := List.isPrefixOf_iff_prefix.mp hp
        have htl_ne : tl ≠ [] := by
          intro hc
          rw [hc, List.append_nil] at htl
          exact he htl.symm
        have hkey : remapEntry src dst e = (dst ++ e.1.drop src.length, e.2) := by
          unfold remapEntry
          rw [if_pos hp]
        have hdrop : e.1.drop src.length = tl := by
          rw [← htl, List.drop_left]
        have hne : dst ++ e.1.drop src.length ≠ dst := by
          rw [hdrop]
          exact append_ne_self_of_ne_nil htl_ne
        rw [hkey, fsGet, if_neg hne, fsGet, if_neg he]
        exact ih (fun x hx => h x (List.mem_cons_of_mem _ hx))
    · have he : e.1 ≠ src := by
        intro hc
        rw [hc] at hp
        exact hp (List.isPrefixOf_iff_prefix.mpr (List.prefix_refl src))
      have hkey : remapEntry src dst e = e := by
        unfold remapEntry
        rw [if_neg hp]
      have hed : e.1 ≠ dst := h e (List.mem_cons_self _ _)
      rw [hkey, fsGet, if_neg hed, fsGet, if_neg he]
      exact ih (fun x hx => h x (List.mem_cons_of_mem _ hx))

theorem fsGet_map_remap_src (src dst : Path) (hnd : ¬ dst <+: src) :
    ∀ l : Fs, fsGet (l.map (remapEntry src dst)) src = none := by
  intro l
  induction l with
  | nil => rfl
  | cons e t ih =>
    rw [List.map_cons]
    have hkeyne : (remapEntry src dst e).1 ≠ src := by
      unfold remapEntry
      by_cases hp : src.isPrefixOf e.1 = true
      · rw [if_pos hp]
        intro hc
        exact hnd ⟨e.1.drop src.length, hc⟩
      · rw [if_neg hp]
        intro hc
        rw [hc] at hp
        exact hp (List.isPrefixOf_iff_prefix.mpr (List.prefix_refl src))
    rw [fsGet, if_neg hkeyne]
    exact ih

theorem fsGet_map_remap_other (src dst q : Path) (hns : ¬ src <+: q)
    (hnd : ¬ dst <+: q) :
    ∀ l : Fs, fsGet (l.map (remapEntry src dst)) q = fsGet l q := by
  intro l
  induction l with
  | nil => rfl
  | cons e t ih =>
    rw [List.map_cons]
    by_cases he : e.1 = q
    · have hp : ¬ src.isPrefixOf e.1 = true := by
        rw [he]
        intro hc
        exact hns (List.isPrefixOf_iff_prefix.mp hc)
      have hkey : remapEntry src dst e = e := by
        unfold remapEntry
        rw [if_neg hp]
      rw [hkey, fsGet, if_pos he, fsGet, if_pos he]
    · have hkeyne : (remapEntry src dst e).1 ≠ q := by
        unfold remapEntry
        by_cases hp : src.isPrefixOf e.1 = true
        · rw [if_pos hp]
          intro hc
          exact hnd ⟨e.1.drop src.length, hc⟩
        · rw [if_neg hp]
          exact he
      rw [fsGet, if_neg hkeyne, fsGet, if_neg he]
      exact ih

theorem renameMove_dst (fs : Fs) (src dst : Path) (hne : src ≠ dst) :
    fsGet (renameMove fs src dst) dst = fsGet fs src := by
  unfold renameMove
  rw [fsGet_map_remap_dst src dst (fsRemove fs dst) (fun e he => (mem_fsRemove he).2)]
  rw [fsGet_fsRemove, if_neg hne]

theorem renameMove_src (fs : Fs) (src dst : Path) (hnd : ¬ dst <+: src) :
    fsGet (renameMove fs src dst) src = none := by
  unfold renameMove
  exact fsGet_map_remap_src src dst hnd _

theorem renameMove_other (fs : Fs) (src dst q : Path) (hns : ¬ src <+: q)
    (hnd : ¬ dst <+: q) :
    fsGet (renameMove fs src dst) q = fsGet fs q := by
  unfold renameMove
  rw [fsGet_map_remap_other src dst q hns hnd]
  rw [fsGet_fsRemove, if_neg (fun hc => hnd (by rw [hc]))]

theorem renameFs_pres (fs : Fs) (src dst q : Path) (hns : ¬ src <+: q)
    (hnd : ¬ dst <+: q) :
    fsGet (renameFs fs src dst) q = fsGet fs q := by
  unfold renameFs
  cases hsrc : fsGet fs src with
  | none => rfl
  | some v =>
    simp only []
    by_cases hdz : dst = []
    · rw [if_pos hdz]
    · rw [if_neg hdz]
      by_cases hde : dirExists fs (dirName dst) = true
      · rw [if_pos hde]
        cases hdst : fsGet fs dst with
        | none => simp only []; exact renameMove_other fs src dst q hns hnd
        | some w =>
          cases w with
          | dir => rfl
          | file cc =>
            cases v with
            | dir => rfl
            | file c2 => simp only []; exact renameMove_other fs src dst q hns hnd
      · rw [if_neg hde]

theorem renameFs_success (fs : Fs) (src dst : Path) (c : String)
    (hsrc : fsGet fs src = some (Node.file c)) (hdz : dst ≠ [])
    (hde : dirExists fs (dirName dst) = true) (hdst : fsGet fs dst = none) :
    renameFs fs src dst = renameMove fs src dst := by
  unfold renameFs
  rw [hsrc]
  simp only []
  rw [if_neg hdz, if_pos hde, hdst]

theorem pasteStep_pres (mode : ClipboardMode) (cwd : Path) (fs : Fs) (s q : Path)
    (h1 : cwd ++ [baseName s] ≠ q) (h2 : ¬ s <+: q)
    (h3 : ¬ (cwd ++ [baseName s]) <+: q) :
    fsGet (pasteStep mode cwd fs s) q = fsGet fs q := by
  simp only [pasteStep]
  by_cases hm : mode = ClipCopy
  · rw [if_pos hm]
    exact copyFile_pres fs s (cwd ++ [baseName s]) q (fun hc => h1 hc.symm)
  · rw [if_neg hm]
    exact renameFs_pres fs s (cwd ++ [baseName s]) q h2 h3

theorem foldl_pasteStep_pres (mode : ClipboardMode) (cwd : Path) (q : Path) :
    ∀ (l : List Path) (fs : Fs),
      (∀ s ∈ l, cwd ++ [baseName s] ≠ q ∧ ¬ s <+: q ∧ ¬ (cwd ++ [baseName s]) <+: q) →
      fsGet (l.foldl (pasteStep mode cwd) fs) q = fsGet fs q := by
  intro l
  induction l with
  | nil => intro fs h; rfl
  | cons s t ih =>
    intro fs h
    rw [List.foldl_cons, ih _ (fun x hx => h x (List.mem_cons_of_mem _ hx))]
    have hs := h s (List.mem_cons_self _ _)
    exact pasteStep_pres mode cwd fs s q hs.1 hs.2.1 hs.2.2

/-- Claim C2: for a paste event in Browse mode and a source path in the
clipboard snapshot that is a regular file and whose destination
`currentDirectory/basename(source)` does not collide — nothing exists at
the destination, no snapshot path is the destination or an ancestor of the
destination, the source, or the current directory, and no two snapshot
paths involved share a base name — the paste has the claimed effect on
that source: with clipboard mode Copy the source file's bytes are
unchanged at the source path and a file with identical bytes exists at the
destination; with mode Cut the source path no longer exists and the
destination holds the original bytes. -/
theorem c2_paste_effect (m : Model) (src : Path) (c : String)
    (h : m.mode = ModeBrowse)
    (hmem : src ∈ m.clipboard)
    (hnodup : m.clipboard.Nodup)
    (hsrc : fsGet m.fs src = some (Node.file c))
    (hcwd : dirExists m.fs m.cwd = true)
    (hdst : fsGet m.fs (m.cwd ++ [baseName src]) = none)
    (hsafe : ∀ s ∈ m.clipboard,
      ¬ s <+: m.cwd
      ∧ m.cwd ++ [baseName s] ≠ src
      ∧ ¬ (m.cwd ++ [baseName s]) <+: src
      ∧ (s ≠ src → ¬ s <+: src ∧ ¬ s <+: (m.cwd ++ [baseName src])
          ∧ baseName s ≠ baseName src)) :
    (m.clipMode = ClipCopy →
      fsGet (update m Event.paste).fs src = some (Node.file c)
      ∧ fsGet (update m Event.paste).fs (m.cwd ++ [baseName src]) = some (Node.file c))
    ∧ (m.clipMode = ClipCut →
      fsGet (update m Event.paste).fs src = none
      ∧ fsGet (update m Event.paste).fs (m.cwd ++ [baseName src]) = some (Node.file c)) := by
  obtain ⟨l1, l2, hsplit⟩ := List.append_of_mem hmem
  have hF : (update m Event.paste).fs
      = List.foldl (pasteStep m.clipMode m.cwd) m.fs (l1 ++ src :: l2) := by
    rw [update_paste m h, refreshBrowse_fs, hsplit]
  rw [hsplit] at hnodup
  have hsn1 : src ∉ l1 := fun hc =>
    (List.disjoint_of_nodup_append hnodup) hc (List.mem_cons_self _ _)
  have hsn2 : src ∉ l2 :=
    (List.nodup_cons.mp (List.Nodup.of_append_right hnodup)).1
  have hl1 : ∀ s ∈ l1, s ∈ m.clipboard ∧ s ≠ src := by
    intro s hs
    refine ⟨by rw [hsplit]; exact List.mem_append_left _ hs, ?_⟩
    intro hc
    subst hc
    exact hsn1 hs
  have hl2 : ∀ s ∈ l2, s ∈ m.clipboard ∧ s ≠ src := by
    intro s hs
    refine ⟨by rw [hsplit]; exact List.mem_append_right _ (List.mem_cons_of_mem _ hs), ?_⟩
    intro hc
    subst hc
    exact hsn2 hs
  have hcs : ∀ s ∈ m.clipboard, s ≠ src →
      m.cwd ++ [baseName s] ≠ src ∧ ¬ s <+: src
      ∧ ¬ (m.cwd ++ [baseName s]) <+: src := by
    intro s hs hne
    obtain ⟨h1, h2, h3, h4⟩ := hsafe s hs
    exact ⟨h2, (h4 hne).1, h3⟩
  have hcd : ∀ s ∈ m.clipboard, s ≠ src →
      m.cwd ++ [baseName s] ≠ m.cwd ++ [baseName src]
      ∧ ¬ s <+: (m.cwd ++ [baseName src])
      ∧ ¬ (m.cwd ++ [baseName s]) <+: (m.cwd ++ [baseName src]) := by
    intro s hs hne
    obtain ⟨h1, h2, h3, h4⟩ := hsafe s hs
    obtain ⟨h5, h6, h7⟩ := h4 hne
    refine ⟨?_, h6, not_concat_prefix_concat h7⟩
    intro hc
    have := List.append_cancel_left hc
    exact h7 (by simpa using this)
  have hcc : ∀ s ∈ m.clipboard,
      m.cwd ++ [baseName s] ≠ m.cwd ∧ ¬ s <+: m.cwd
      ∧ ¬ (m.cwd ++ [baseName s]) <+: m.cwd := by
    intro s hs
    exact ⟨append_ne_self_of_ne_nil (by simp), (hsafe s hs).1,
      not_concat_prefix_self _ _⟩
  have hn1src : fsGet (List.foldl (pasteStep m.clipMode m.cwd) m.fs l1) src
      = some (Node.file c) := by
    rw [foldl_pasteStep_pres m.clipMode m.cwd src l1 m.fs
      (fun s hs => hcs s (hl1 s hs).1 (hl1 s hs).2)]
    exact hsrc
  have hn1dst : fsGet (List.foldl (pasteStep m.clipMode m.cwd) m.fs l1)
      (m.cwd ++ [baseName src]) = none := by
    rw [foldl_pasteStep_pres m.clipMode m.cwd (m.cwd ++ [baseName src]) l1 m.fs
      (fun s hs => hcd s (hl1 s hs).1 (hl1 s hs).2)]
    exact hdst
  have hdir1 : dirExists (List.foldl (pasteStep m.clipMode m.cwd) m.fs l1) m.cwd
      = true := by
    unfold dirExists at hcwd ⊢
    rw [foldl_pasteStep_pres m.clipMode m.cwd m.cwd l1 m.fs
      (fun s hs => hcc s (hl1 s hs).1)]
    exact hcwd
  have hdd : dirName (m.cwd ++ [baseName src]) = m.cwd := List.dropLast_concat
  have hdz : m.cwd ++ [baseName src] ≠ [] := by simp
  have hsds : src ≠ m.cwd ++ [baseName src] := fun hc => (hsafe src hmem).2.1 hc.symm
  have hF2 : List.foldl (pasteStep m.clipMode m.cwd) m.fs (l1 ++ src :: l2)
      = List.foldl (pasteStep m.clipMode m.cwd)
          (pasteStep m.clipMode m.cwd
            (List.foldl (pasteStep m.clipMode m.cwd) m.fs l1) src) l2 := by
    rw [List.foldl_append, List.foldl_cons]
  constructor
  · intro hm
    have hstep : pasteStep m.clipMode m.cwd
        (List.foldl (pasteStep m.clipMode m.cwd) m.fs l1) src
        = fsSet (List.foldl (pasteStep m.clipMode m.cwd) m.fs l1)
            (m.cwd ++ [baseName src]) (Node.file c) := by
      simp only [pasteStep]
      rw [if_pos hm]
      exact copyFile_success _ src _ c hn1src hdz (by rw [hn1dst]; rfl)
        (by rw [hdd]; exact hdir1)
    constructor
    · rw [hF, hF2, foldl_pasteStep_pres m.clipMode m.cwd src l2 _
        (fun s hs => hcs s (hl2 s hs).1 (hl2 s hs).2), hstep,
        fsGet_fsSet, if_neg hsds]
      exact hn1src
    · rw [hF, hF2, foldl_pasteStep_pres m.clipMode m.cwd (m.cwd ++ [baseName src]) l2 _
        (fun s hs => hcd s (hl2 s hs).1 (hl2 s hs).2), hstep,
        fsGet_fsSet, if_pos rfl]
  · intro hm
    have hmne : m.clipMode ≠ ClipCopy := by
      rw [hm]
      intro hc
      cases hc
    have hstep : pasteStep m.clipMode m.cwd
        (List.foldl (pasteStep m.clipMode m.cwd) m.fs l1) src
        = renameMove (List.foldl (pasteStep m.clipMode m.cwd) m.fs l1) src
            (m.cwd ++ [baseName src]) := by
      simp only [pasteStep]
      rw [if_neg hmne]
      exact renameFs_success _ src _ c hn1src hdz (by rw [hdd]; exact hdir1) hn1dst
    constructor
    · rw [hF, hF2, foldl_pasteStep_pres m.clipMode m.cwd src l2 _
        (fun s hs => hcs s (hl2 s hs).1 (hl2 s hs).2), hstep]
      exact renameMove_src _ src _ (hsafe src hmem).2.2.1
    · rw [hF, hF2, foldl_pasteStep_pres m.clipMode m.cwd (m.cwd ++ [baseName src]) l2 _
        (fun s hs => hcd s (hl2 s hs).1 (hl2 s hs).2), hstep,
        renameMove_dst _ src _ hsds]
      exact hn1src

/-- Model used for claim C2's witness (Copy): yank of `/a/f` pasted into
`/b`. -/
def c2CopyStart : Model :=
  { mode := ModeBrowse, cwd := ["b"], showHidden := false, items := []
  , selected := { name := "f", path := ["a", "f"], isDir := false, isParent := false }
  , marked := [], clipboard := [["a", "f"]], clipMode := ClipCopy
  , inputValue := "", inputTarget := ""
  , fs := [(["a"], Node.dir), (["a", "f"], Node.file "hi"), (["b"], Node.dir)] }

/-- Model used for claim C2's witness (Cut): cut of `/a/f` pasted into
`/b`. -/
def c2CutStart : Model := { c2CopyStart with clipMode := ClipCut }

/-- Witness for C2 at concrete states: copy-paste leaves `/a/f` intact and
creates `/b/f` with the same bytes; cut-paste removes `/a/f` and creates
`/b/f` with the original bytes. -/
theorem c2_paste_effect_witness :
    fsGet (update c2CopyStart Event.paste).fs ["a", "f"] = some (Node.file "hi")
    ∧ fsGet (update c2CopyStart Event.paste).fs ["b", "f"] = some (Node.file "hi")
    ∧ fsGet (update c2CutStart Event.paste).fs ["a", "f"] = none
    ∧ fsGet (update c2CutStart Event.paste).fs ["b", "f"] = some (Node.file "hi") :=
  ⟨((c2_paste_effect c2CopyStart ["a", "f"] "hi" (by decide) (by decide) (by decide)
      (by decide) (by decide) (by decide) (by decide)).1 rfl).1,
   ((c2_paste_effect c2CopyStart ["a", "f"] "hi" (by decide) (by decide) (by decide)
      (by decide) (by decide) (by decide) (by decide)).1 rfl).2,
   ((c2_paste_effect c2CutStart ["a", "f"] "hi" (by decide) (by decide) (by decide)
      (by decide) (by decide) (by decide) (by decide)).2 rfl).1,
   ((c2_paste_effect c2CutStart ["a", "f"] "hi" (by decide) (by decide) (by decide)
      (by decide) (by decide) (by decide) (by decide)).2 rfl).2⟩

/-- Claim C3: committing a non-empty buffer with target Create resolves
`full = currentDirectory/buffer` (the trimmed buffer; C10 covers the
trimming).  On a tree-consistent filesystem: (a) with a trailing
separator, if no regular file blocks the path then `full` and all its
missing ancestors become directories; (b) without one, if no regular file
blocks the parent chain and nothing exists at `full`, an empty file is
created exclusively there after the missing ancestor directories are
created; (c) if a file already exists at `full`, the commit never
overwrites it — its content is untouched. -/
theorem c3_create_commit (m : Model) (h : m.mode = ModeInput)
    (ht : m.inputTarget = "create") (hne : trimSpace m.inputValue ≠ "")
    (hwf : Wf m.fs) :
    (endsWithSep (trimSpace m.inputValue) = true →
      (∀ q ∈ (joinPath m.cwd (trimSpace m.inputValue)).inits,
          isFileNode (fsGet m.fs q) = false) →
      ∀ q ∈ (joinPath m.cwd (trimSpace m.inputValue)).inits, q ≠ [] →
        fsGet (update m Event.commit).fs q = some Node.dir)
    ∧ (endsWithSep (trimSpace m.inputValue) = false →
        (∀ q ∈ (dirName (joinPath m.cwd (trimSpace m.inputValue))).inits,
            isFileNode (fsGet m.fs q) = false) →
        joinPath m.cwd (trimSpace m.inputValue) ≠ [] →
        fsGet m.fs (joinPath m.cwd (trimSpace m.inputValue)) = none →
        fsGet (update m Event.commit).fs (joinPath m.cwd (trimSpace m.inputValue))
            = some (Node.file "")
        ∧ (∀ q ∈ (dirName (joinPath m.cwd (trimSpace m.inputValue))).inits, q ≠ [] →
            fsGet (update m Event.commit).fs q = some Node.dir))
    ∧ (endsWithSep (trimSpace m.inputValue) = false →
        ∀ c : String,
          fsGet m.fs (joinPath m.cwd (trimSpace m.inputValue)) = some (Node.file c) →
          fsGet (update m Event.commit).fs (joinPath m.cwd (trimSpace m.inputValue))
              = some (Node.file c)) := by
  rw [update_commit m h]
  have hfs := handleInput_fs_create hne ht
  refine ⟨?_, ?_, ?_⟩
  · intro hsep hnf q hq hqne
    rw [hfs, if_pos hsep]
    have hnf1 : ∀ r ∈ (joinPath m.cwd (trimSpace m.inputValue)).inits,
        isFileNode (fsGet (mkdirAll m.fs (dirName (joinPath m.cwd (trimSpace m.inputValue)))) r)
          = false := by
      intro r hr
      rcases mkdirAll_cases m.fs (dirName (joinPath m.cwd (trimSpace m.inputValue))) r with hc | hc
      · rw [hc]; exact hnf r hr
      · rw [hc.2]; rfl
    exact mkdirAll_creates _ _ (mkdirAll_wf _ _ hwf) hnf1 q hq hqne
  · intro hsep hnf hfne hnone
    have hsep' : ¬ endsWithSep (trimSpace m.inputValue) = true := by
      rw [hsep]; exact Bool.false_ne_true
    rw [hfs, if_neg hsep']
    have hanc := mkdirAll_creates m.fs (dirName (joinPath m.cwd (trimSpace m.inputValue)))
      hwf hnf
    have h1 : fsGet (mkdirAll m.fs (dirName (joinPath m.cwd (trimSpace m.inputValue))))
        (joinPath m.cwd (trimSpace m.inputValue)) = none := by
      rw [mkdirAll_unchanged _ _ _ (Or.inl (not_prefix_dropLast hfne))]
      exact hnone
    have hdirex : dirExists (mkdirAll m.fs (dirName (joinPath m.cwd (trimSpace m.inputValue))))
        (dirName (joinPath m.cwd (trimSpace m.inputValue))) = true := by
      by_cases hdp : dirName (joinPath m.cwd (trimSpace m.inputValue)) = []
      · rw [hdp]; rfl
      · have hd := hanc _ ((List.mem_inits _ _).mpr (List.prefix_refl _)) hdp
        unfold dirExists
        rw [hd]
        simp [isDirNode]
    unfold openFileExcl
    rw [if_neg hfne, h1, if_pos hdirex]
    constructor
    · rw [fsGet_fsSet, if_pos rfl]
    · intro q hq hqne
      have hqp : q ≠ joinPath m.cwd (trimSpace m.inputValue) :=
        ne_of_prefix_dropLast hfne ((List.mem_inits _ _).mp hq)
      rw [fsGet_fsSet, if_neg hqp]
      exact hanc q hq hqne
  · intro hsep c hc
    have hsep' : ¬ endsWithSep (trimSpace m.inputValue) = true := by
      rw [hsep]; exact Bool.false_ne_true
    rw [hfs, if_neg hsep']
    by_cases hful : joinPath m.cwd (trimSpace m.inputValue) = []
    · unfold openFileExcl
      rw [if_pos hful]
      rw [mkdirAll_unchanged _ _ _ (Or.inr hful)]
      exact hc
    · have h1 : fsGet (mkdirAll m.fs (dirName (joinPath m.cwd (trimSpace m.inputValue))))
          (joinPath m.cwd (trimSpace m.inputValue)) = some (Node.file c) := by
        rw [mkdirAll_unchanged _ _ _ (Or.inl (not_prefix_dropLast hful))]
        exact hc
      unfold openFileExcl
      rw [if_neg hful, h1]
      exact h1

/-- Model used for claim C3's witnesses: Input mode, target Create, in
directory `/h` of a tree-consistent filesystem. -/
def c3Start : Model :=
  { mode := ModeInput, cwd := ["h"], showHidden := false, items := []
  , selected := { name := "x", path := ["h", "x"], isDir := false, isParent := false }
  , marked := [], clipboard := [], clipMode := ClipNone
  , inputValue := "a/b", inputTarget := "create"
  , fs := [(["h"], Node.dir), (["h", "keep"], Node.file "K")] }

/-- Witness for C3 at a concrete state: committing buffer `"a/b"` creates
the missing ancestor directory `/h/a` and an empty file `/h/a/b`, and
committing while a file already exists (buffer `"keep"`) leaves its
content intact. -/
theorem c3_create_commit_witness :
    Wf c3Start.fs
    ∧ trimSpace c3Start.inputValue ≠ ""
    ∧ fsGet (update c3Start Event.commit).fs ["h", "a", "b"] = some (Node.file "")
    ∧ fsGet (update c3Start Event.commit).fs ["h", "a"] = some Node.dir
    ∧ fsGet (update { c3Start with inputValue := "keep" } Event.commit).fs ["h", "keep"]
        = some (Node.file "K") :=
  ⟨by decide, by decide,
    ((c3_create_commit c3Start (by decide) (by decide) (by decide) (by decide)).2.1
      (by decide) (by decide) (by decide) (by decide)).1,
    ((c3_create_commit c3Start (by decide) (by decide) (by decide) (by decide)).2.1
      (by decide) (by decide) (by decide) (by decide)).2
      ["h", "a"] (by decide) (by decide),
    (c3_create_commit { c3Start with inputValue := "keep" } (by decide) (by decide)
      (by decide) (by decide)).2.2 (by decide) "K" (by decide)⟩

end Bobafm
